import Mathlib

/-!
Verification of the Pallas Mosaic TPU lowering pass
(`jax/_src/pallas/mosaic/lowering.py`).

The development shallowly embeds the slices of the lowering pass that the
checked properties are about:

* the constant materializer `ir_constant` and the dtype-to-IR-type mapping;
* the per-dimension scheduling semantics computed by
  `MosaicGridMapping.__init__` / `get_dimension_semantics`;
* the block-shape legality validation at the top of `lower_jaxpr_to_module`
  (the modern, non-forward-compatibility path);
* the counted-loop lowering `_lower_jaxpr_to_for_loop`;
* the multiway-branch cascade `_cond_lowering_rule`;
* the memory-reference indexing chain
  `_indexer_to_start_size_stride` / `_slice_memref` / `_index_ref`
  (static indices; dynamic `ir.Value` starts/sizes are not exercised by the
  properties checked here);
* the boolean load/store casts `_maybe_cast_load_to_bool` /
  `_maybe_cast_store_to_memref_type` and the swap rule
  `_masked_swap_lowering_rule`;
* the equation-level dispatcher `jaxpr_subcomp`: its trace-marker (name
  stack) bookkeeping and its exception wrapping.  Value/environment
  threading is elided: the checked properties concern only marker emission
  and error flow, neither of which depends on the lowered values.
-/

deriving instance DecidableEq for Except

namespace MosaicLowering

/-- Element dtypes occurring in the lowering pass. -/
inductive DType where
  | int8 | int16 | int32 | int64
  | uint8 | uint16 | uint32 | uint64
  | float16 | float32 | float64 | bfloat16
  | bool
  deriving DecidableEq, Repr

/-- Target IR types produced by `_dtype_to_ir_type` (integers are signless). -/
inductive IRType where
  | int (width : Nat)
  | f16 | f32 | f64 | bf16
  deriving DecidableEq, Repr

/-- Mirrors `_dtype_to_ir_type`: booleans crossing a kernel boundary are
stored as 4-byte integers (`BOOL_MEMREF_TYPE = int32`); all integer types
map to signless integers of the same width (unsigned types are interpreted
as signed by Mosaic). -/
def dtypeToIrType (dtype : DType) (isKernelBoundary : Bool) : IRType :=
  let dtype := if isKernelBoundary && dtype == DType.bool then DType.int32 else dtype
  match dtype with
  | .int8 | .uint8 => .int 8
  | .int16 | .uint16 => .int 16
  | .int32 | .uint32 => .int 32
  | .int64 | .uint64 => .int 64
  | .bool => .int 1
  | .float16 => .f16
  | .float32 => .f32
  | .float64 => .f64
  | .bfloat16 => .bf16

/-- Errors raised by the modelled fragments of the lowering pass.  Each
constructor corresponds to one `raise` site in the source. -/
inductive Err where
  | unsupportedType (dtype : DType)
  | dimensionSemanticsMismatch
  | semanticsIterExhausted
  | invalidBlockSpecRank
  | invalidBlockSpecAnyWindow
  | invalidBlockSpecTiling
  | unimplementedUnroll (unroll : Int)
  | stridedRefSliceUnsupported
  | invalidIndexer
  | unsupportedMasking
  deriving DecidableEq, Repr

/-! ### Constant materializer (`ir_constant`) -/

/-- Host-side inputs to `ir_constant`: a raw Python `int`, a raw Python
`float` (both without a `dtype` attribute), or a NumPy scalar/array with an
element dtype.  Constant payloads are elided; the checked property concerns
only the produced constant's kind and type. -/
inductive HostVal where
  | pyInt
  | pyFloat
  | arr (dtype : DType)
  deriving DecidableEq, Repr

/-- IR constants produced by `ir_constant` (`arith.ConstantOp` with an
integer, float, or boolean attribute). -/
inductive IRConst where
  | intConst (ty : IRType)
  | floatConst (ty : IRType)
  | boolConst (ty : IRType)
  deriving DecidableEq, Repr

/-- The dtype `ir_constant` sees after its input normalization: a Python
`int` becomes `np.array(x, np.int32)` and a Python `float` becomes
`np.array(x, np.float32)`; anything with a dtype keeps it. -/
def hostValDtype : HostVal → DType
  | .pyInt => .int32
  | .pyFloat => .float32
  | .arr d => d

/-- Mirrors `ir_constant`.  After normalization the input is an array, so
the `isinstance(x, int)` / `isinstance(x, float)` guards of the source are
subsumed by the dtype tests (a NumPy array is neither a Python `int` nor a
Python `float`).  The dispatch order of the source is kept: the integer
branch accepts `int32`, `uint32` and `int8`; then `float32`; then
`bfloat16`; then `bool`; everything else raises `NotImplementedError`. -/
def irConstant (x : HostVal) (mlirType : Option IRType) : Except Err IRConst :=
  let d := hostValDtype x
  let ty := match mlirType with
    | some t => t
    | none => dtypeToIrType d false
  if d = .int32 ∨ d = .uint32 ∨ d = .int8 then .ok (.intConst ty)
  else if d = .float32 then .ok (.floatConst ty)
  else if d = .bfloat16 then .ok (.floatConst ty)
  else if d = .bool then .ok (.boolConst ty)
  else .error (.unsupportedType d)

/-- The element-type set the specification claims `ir_constant` accepts:
signed 8-bit and 32-bit integers, 32-bit float, the narrow 16-bit float
(`bfloat16`), and boolean. -/
def specClaimedConstantTypes : List DType :=
  [.int8, .int32, .float32, .bfloat16, .bool]

/-- The element types `ir_constant` actually accepts: the specification's
set plus `uint32` (the source's integer branch tests
`x.dtype in (np.int32, np.uint32, np.int8)`). -/
def irConstantAcceptedTypes : List DType :=
  [.int8, .int32, .uint32, .float32, .bfloat16, .bool]

/-! ### Dimension semantics (`MosaicGridMapping.__init__`) -/

/-- Number of user (non-vmap-introduced) grid dimensions:
`len(tuple(g for i, g in enumerate(grid) if i not in mapped_dims))`. -/
def userGridCount (gridLen : Nat) (mappedDims : List Nat) : Nat :=
  ((List.range gridLen).filter (fun i => decide (i ∉ mappedDims))).length

/-- Mirrors the comprehension
`tuple(next(semantics_iter) if i not in mapped_dims else "parallel" for i in range(len(grid)))`.
Synthetic (vmap) dimensions are assigned `"parallel"`; other dimensions
consume the user-supplied semantics in order.  `none` models the
`StopIteration` that an exhausted iterator would raise. -/
def assignDimensionSemantics : List Nat → List Nat → List String → Option (List String)
  | [], _, _ => some []
  | i :: rest, mappedDims, sems =>
    if i ∈ mappedDims then
      (assignDimensionSemantics rest mappedDims sems).map (fun l => "parallel" :: l)
    else
      match sems with
      | [] => none
      | s :: sems2 =>
        (assignDimensionSemantics rest mappedDims sems2).map (fun l => s :: l)

/-- Mirrors the dimension-semantics part of `MosaicGridMapping.__init__`:
defaulting of absent semantics to `"arbitrary"` per user grid dimension,
the length check raising `ValueError`, and the per-dimension assignment. -/
def mosaicDimensionSemantics (gridLen : Nat) (mappedDims : List Nat)
    (dimensionSemantics : Option (List String)) : Except Err (List String) :=
  let userGridLen := userGridCount gridLen mappedDims
  let ds := match dimensionSemantics with
    | none => List.replicate userGridLen "arbitrary"
    | some l => l
  if ds.length ≠ userGridLen then .error .dimensionSemanticsMismatch
  else
    match assignDimensionSemantics (List.range gridLen) mappedDims ds with
    | some result => .ok result
    | none => .error .semanticsIterExhausted

/-! ### Block-shape legality (`lower_jaxpr_to_module`) -/

/-- Memory spaces relevant to the validated block mappings. -/
inductive MemSpace where
  | vmem | smem | anySpace | semaphoreMem
  deriving DecidableEq, Repr

/-- One dimension of a block shape: either a vmap-elided (`Mapped`)
dimension or a concrete size. -/
inductive BlockDim where
  | mapped
  | size (n : Nat)
  deriving DecidableEq, Repr

/-- The substitution `1 if bs is pallas_core.mapped else bs`. -/
def BlockDim.unmapped : BlockDim → Nat
  | .mapped => 1
  | .size n => n

/-- The per-operand data consulted by the validation loop at the top of
`lower_jaxpr_to_module`. -/
structure BlockMapping where
  blockShape : List BlockDim
  arrayShape : List Nat
  memorySpace : MemSpace
  trivialWindow : Bool
  dtypeBitWidth : Nat
  deriving DecidableEq, Repr

/-- Mirrors the validation of one block mapping in `lower_jaxpr_to_module`,
on the modern path (`jaxlib >= 0.4.32`, not forward-compatibility mode):
SMEM operands with a trivial window are exempt; rank must be at least 1;
memory space ANY admits only trivial windows; and the last one or two
dimensions must satisfy the tiling divisibility conditions. -/
def validateBlockMapping (bm : BlockMapping) : Except Err Unit :=
  let rank := bm.blockShape.length
  if bm.memorySpace = .smem ∧ bm.trivialWindow then .ok ()
  else if rank < 1 then .error .invalidBlockSpecRank
  else if bm.memorySpace = .anySpace ∧ ¬ bm.trivialWindow then
    .error .invalidBlockSpecAnyWindow
  else
    let unmappedBs := bm.blockShape.map BlockDim.unmapped
    let bs0 := unmappedBs.getLastD 1
    let as0 := bm.arrayShape.getLastD 1
    let evenlyDivisible :=
      if 2 ≤ rank then
        let bs1 := unmappedBs.dropLast.getLastD 1
        let as1 := bm.arrayShape.dropLast.getLastD 1
        (bs0 == as0 || bs0 % 128 == 0) && (bs1 == as1 || bs1 % 8 == 0)
      else
        let tilingSize := 128 * (32 / bm.dtypeBitWidth)
        bs0 == as0 || bs0 % tilingSize == 0
    if evenlyDivisible then .ok () else .error .invalidBlockSpecTiling

/-- The tiling conditions as the specification states them: the last
dimension's block size equals the array's last-dimension size or is a
multiple of 128 (for rank 1, a multiple of 128 scaled by 32 over the
element bit width), and for rank at least 2 the second-to-last dimension's
block size equals the array dimension or is a multiple of 8. -/
def tilingConditions (bm : BlockMapping) : Prop :=
  let unmappedBs := bm.blockShape.map BlockDim.unmapped
  let bs0 := unmappedBs.getLastD 1
  let as0 := bm.arrayShape.getLastD 1
  if 2 ≤ bm.blockShape.length then
    (bs0 = as0 ∨ bs0 % 128 = 0)
    ∧ (unmappedBs.dropLast.getLastD 1 = bm.arrayShape.dropLast.getLastD 1
       ∨ unmappedBs.dropLast.getLastD 1 % 8 = 0)
  else
    bs0 = as0 ∨ bs0 % (128 * (32 / bm.dtypeBitWidth)) = 0

/-! ### Counted-loop lowering (`_lower_jaxpr_to_for_loop`) -/

/-- A loop bound that is either a compile-time Python integer or an
`ir.Value` produced at runtime. -/
inductive IrOrConst where
  | const (n : Int)
  | dyn
  deriving DecidableEq, Repr

/-- Shape of the IR emitted by `_lower_jaxpr_to_for_loop`: either a fully
unrolled sequence of inlined body copies (one entry per copy, carrying the
loop-index constant fed to that copy, in emission order), or a single
structured `scf.for` region. -/
inductive ForLoopLowering where
  | unrolled (indices : List Int)
  | forRegion (lower : IrOrConst) (steps : IrOrConst)
  deriving DecidableEq, Repr

/-- Mirrors `_lower_jaxpr_to_for_loop`: if `start` and `num_steps` are both
compile-time constants and `num_steps == unroll`, the body is inlined once
per iteration (`for i in range(start, start + num_steps)`) with no loop
region; otherwise any `unroll != 1` raises `NotImplementedError`; otherwise
one `scf.ForOp` region is emitted. -/
def lowerJaxprToForLoop (start numSteps : IrOrConst) (unroll : Int) :
    Except Err ForLoopLowering :=
  match start, numSteps with
  | .const s, .const n =>
    if n == unroll then
      .ok (.unrolled ((List.range n.toNat).map (fun (i : Nat) => s + (i : Int))))
    else if unroll != 1 then .error (.unimplementedUnroll unroll)
    else .ok (.forRegion (.const s) (.const n))
  | st, ns =>
    if unroll != 1 then .error (.unimplementedUnroll unroll)
    else .ok (.forRegion st ns)

/-! ### Multiway-branch cascade (`_cond_lowering_rule`) -/

/-- The nested two-way conditional structure emitted by
`_cond_lowering_rule`: each `ifOp` tests the (successively decremented)
branch index against zero. -/
inductive CondTree (α : Type) where
  | leaf (branch : α)
  | ifOp (thenBr : CondTree α) (elseBr : CondTree α)
  deriving DecidableEq, Repr

/-- Mirrors the recursion of `_cond_lowering_rule` over the branch list:
the else-region lowers `branches[0]`; the then-region lowers `branches[1]`
when only two branches remain, and otherwise recurses on `branches[1:]`
with the index decremented by one.  Fewer than two branches cannot be
lowered (the source would fault indexing `branches[1]`). -/
def condLoweringRule {α : Type} : List α → Option (CondTree α)
  | b0 :: b1 :: rest =>
    if rest.isEmpty then some (.ifOp (.leaf b1) (.leaf b0))
    else (condLoweringRule (b1 :: rest)).map (fun t => .ifOp t (.leaf b0))
  | _ => none

/-- Runtime semantics of the emitted cascade: each `ifOp` compares the
current index against zero (`arith.CmpIOp ne`); the then-region sees the
index decremented by one (`arith.SubIOp`), matching the recursive call. -/
def evalCondTree {α : Type} (index : Int) : CondTree α → α
  | .leaf b => b
  | .ifOp t e => if index ≠ 0 then evalCondTree (index - 1) t else evalCondTree index e

/-! ### Memory-reference indexing
(`_indexer_to_start_size_stride`, `_slice_memref`, `_index_ref`) -/

/-- One per-dimension index descriptor of an `NDIndexer`: a static strided
slice or a literal integer index. -/
inductive IndexDesc where
  | sliceIdx (start : Nat) (size : Nat) (stride : Nat)
  | intIdx (i : Nat)
  deriving DecidableEq, Repr

/-- Mirrors `_index_to_start_size_stride` (static cases): a slice yields
its start/size/stride and is not squeezed; an integer index yields a unit
slice that is squeezed. -/
def indexToStartSizeStride : IndexDesc → Nat × Nat × Nat × Bool
  | .sliceIdx start size stride => (start, size, stride, false)
  | .intIdx i => (i, 1, 1, true)

/-- The loop of `_indexer_to_start_size_stride` over the reference's block
shape: mapped (vmap-elided) dimensions get a synthetic zero start and unit
size and are squeezed; other dimensions consume the next index descriptor.
Returns the per-dimension tuples and the unconsumed descriptors; `none`
models the `StopIteration` of an exhausted descriptor iterator. -/
def indexerLoop : List BlockDim → List IndexDesc →
    Option (List (Nat × Nat × Nat × Bool) × List IndexDesc)
  | [], remaining => some ([], remaining)
  | .mapped :: rest, remaining =>
    (indexerLoop rest remaining).map (fun r => ((0, 1, 1, true) :: r.1, r.2))
  | .size _ :: rest, remaining =>
    match remaining with
    | [] => none
    | idx :: remaining2 =>
      (indexerLoop rest remaining2).map
        (fun r => (indexToStartSizeStride idx :: r.1, r.2))

/-- Mirrors `_indexer_to_start_size_stride`: runs the per-dimension loop,
checks that the indexer is fully consumed (the source asserts
`next(indices_iter, None) is None`), and returns starts, sizes, strides,
squeeze flags, and the new block shape (the sizes of the non-squeezed
dimensions). -/
def indexerToStartSizeStride (indexer : List IndexDesc)
    (refBlockShape : List BlockDim) :
    Option (List Nat × List Nat × List Nat × List Bool × List Nat) :=
  match indexerLoop refBlockShape indexer with
  | none => none
  | some (tuples, remaining) =>
    if remaining.isEmpty then
      some (tuples.map (fun t => t.1),
            tuples.map (fun t => t.2.1),
            tuples.map (fun t => t.2.2.1),
            tuples.map (fun t => t.2.2.2),
            (tuples.filter (fun t => !t.2.2.2)).map (fun t => t.2.1))
    else none

/-- Shape of the value produced by an indexer
(`NDIndexer.get_indexer_shape`): the slice sizes in order; integer indices
contribute no dimension. -/
def indexerShape (indexer : List IndexDesc) : List Nat :=
  indexer.filterMap (fun d => match d with
    | .sliceIdx _ size _ => some size
    | .intIdx _ => none)

/-- A memory-reference IR type: static shape, element IR type, memory
space.  References bound in the lowering environment are created by
`aval_to_ir_type` with `is_kernel_boundary=True`, so a boolean ref carries
the 4-byte storage integer (`i32`) as its element type. -/
structure MemRefTy where
  shape : List Nat
  elemType : IRType
  memspace : MemSpace
  deriving DecidableEq, Repr

/-- Mirrors `_slice_memref`: computes start/size/stride/squeeze tuples,
rejects strided slices of references, emits a `tpu.MemRefSliceOp` narrowing
the type to the slice sizes, and, when any dimension is squeezed, a further
`tpu.MemRefSqueezeOp` narrowing the type to the indexer's result shape.
Both narrowed types are built with `_dtype_to_ir_type(ref_aval.dtype)` and
its default `is_kernel_boundary=False` — for a boolean aval this is `i1`,
not the `i32` the input reference was created with.  Returns the resulting
reference type and the new block shape. -/
def sliceMemref (refTy : MemRefTy) (refAvalDtype : DType)
    (indexer : List IndexDesc) (refBlockShape : List BlockDim) :
    Except Err (MemRefTy × List BlockDim) :=
  match indexerToStartSizeStride indexer refBlockShape with
  | none => .error .invalidIndexer
  | some (_, sizes, strides, squeezeDims, newBlockShape) =>
    if ¬ (strides.all (fun s => s == 1)) then .error .stridedRefSliceUnsupported
    else
      let targetTy : MemRefTy :=
        ⟨sizes, dtypeToIrType refAvalDtype false, refTy.memspace⟩
      if squeezeDims.any id then
        let squeezedTy : MemRefTy :=
          ⟨indexerShape indexer, dtypeToIrType refAvalDtype false, refTy.memspace⟩
        .ok (squeezedTy, newBlockShape.map BlockDim.size)
      else
        .ok (targetTy, newBlockShape.map BlockDim.size)

/-- Mirrors `_index_ref`: folds `_slice_memref` over the supplied
indexers. -/
def indexRef (refTy : MemRefTy) (refAvalDtype : DType)
    (refBlockShape : List BlockDim) (indexers : List (List IndexDesc)) :
    Except Err (MemRefTy × List BlockDim) :=
  match indexers with
  | [] => .ok (refTy, refBlockShape)
  | indexer :: rest =>
    match sliceMemref refTy refAvalDtype indexer refBlockShape with
    | .error e => .error e
    | .ok (ty2, bs2) => indexRef ty2 refAvalDtype bs2 rest

/-! ### Boolean load/store casts and the swap rule -/

/-- Register-level values flowing through the load/store lowering rules:
scalar or vector, boolean (mask register) or integer form. -/
inductive RegVal where
  | scalarBool (b : Bool)
  | scalarInt (n : Int)
  | vecBool (bs : List Bool)
  | vecInt (ns : List Int)
  deriving DecidableEq, Repr

/-- The `arith.ExtUIOp` issued by the store path: zero-extends a boolean
(i1) to the 4-byte storage integer, elementwise for vectors.  It is only
ever applied to boolean values; other values are returned unchanged. -/
def extUI : RegVal → RegVal
  | .scalarBool b => .scalarInt (if b then 1 else 0)
  | .vecBool bs => .vecInt (bs.map (fun b => if b then 1 else 0))
  | v => v

/-- The `arith.CmpIOp ne`-against-zero issued by the load path, elementwise
for vectors.  Only ever applied to integer values. -/
def cmpNeZero : RegVal → RegVal
  | .scalarInt n => .scalarBool (decide (n ≠ 0))
  | .vecInt ns => .vecBool (ns.map (fun n => decide (n ≠ 0)))
  | v => v

/-- Mirrors `_maybe_cast_load_to_bool`: when the requested output dtype is
boolean, the raw stored integer is compared not-equal-to-zero (splat zero
constant for the vector case); otherwise the value passes through. -/
def maybeCastLoadToBool (outAvalIsBool : Bool) (val : RegVal) : RegVal :=
  if !outAvalIsBool then val else cmpNeZero val

/-- Mirrors `_maybe_cast_store_to_memref_type`: when the expected dtype is
boolean, the register value is zero-extended to the memref's 4-byte integer
type before the store; otherwise the value passes through. -/
def maybeCastStoreToMemrefType (expectedAvalIsBool : Bool) (val : RegVal) : RegVal :=
  if !expectedAvalIsBool then val else extUI val

/-- Storing a value and loading it back from the same location: the memory
cell holds exactly the stored representation. -/
def storeThenLoadRoundTrip (isBoolDtype : Bool) (v : RegVal) : RegVal :=
  maybeCastLoadToBool isBoolDtype (maybeCastStoreToMemrefType isBoolDtype v)

/-- Mirrors `_masked_swap_lowering_rule`, abstracting the target location's
contents as `memContents` (in storage form).  A supplied mask raises
`NotImplementedError`.  Both the scalar-memory (SMEM) path and the
vector-memory path first load the pre-store value (`memref.LoadOp`, resp.
`vector.LoadOp`/`tpu.StridedLoadOp` when `needStride`), cast the value to
store, issue the store, and return the pre-store value (cast back to
boolean form when the dtype is boolean).  The result is the returned value
paired with the new contents of the location. -/
def maskedSwapLoweringRule (isSmem needStride isBoolDtype : Bool)
    (mask : Option RegVal) (memContents val : RegVal) :
    Except Err (RegVal × RegVal) :=
  if mask.isSome then .error .unsupportedMasking
  else if isSmem then
    let result := memContents
    let result := maybeCastLoadToBool isBoolDtype result
    let val2 := maybeCastStoreToMemrefType isBoolDtype val
    .ok (result, val2)
  else
    -- `needStride` selects `tpu.StridedLoadOp`/`tpu.StridedStoreOp` over
    -- `vector.LoadOp`/`vector.StoreOp`; both read the pre-store contents.
    let result := memContents
    let val2 := maybeCastStoreToMemrefType isBoolDtype val
    let result := maybeCastLoadToBool isBoolDtype result
    .ok (result, val2)

/-! ### Equation-level dispatcher (`jaxpr_subcomp`): trace markers and
exception wrapping -/

/-- Scope markers emitted on named-scope boundaries
(`tpu.TraceStartOp` / `tpu.TraceStopOp`). -/
inductive TraceMarker where
  | start (name : String)
  | stop
  deriving DecidableEq, Repr

/-- The longest-common-prefix length computed by the loop in
`_compute_name_stack_updates`. -/
def lcpLen : List String → List String → Nat
  | o :: os, n :: ns => if o = n then lcpLen os ns + 1 else 0
  | _, _ => 0

/-- Mirrors `_compute_name_stack_updates`: the names popped and pushed
between two name stacks. -/
def computeNameStackUpdates (oldStack newStack : List String) :
    List String × List String :=
  let k := lcpLen oldStack newStack
  (oldStack.drop k, newStack.drop k)

/-- The markers emitted for one update: one `TraceStopOp` per popped name,
then one `TraceStartOp` per pushed name. -/
def markersFor (popped pushed : List String) : List TraceMarker :=
  popped.map (fun _ => TraceMarker.stop) ++ pushed.map TraceMarker.start

/-- The end-of-jaxpr drain: pops back to the entry stack, emitting one
`TraceStopOp` per remaining name (the source asserts that nothing is
pushed). -/
def drainMarkers (current initial : List String) : List TraceMarker :=
  (computeNameStackUpdates current initial).1.map (fun _ => TraceMarker.stop)

/-- Errors raised out of the dispatcher: the bare `NotImplementedError`
for an unregistered primitive, an arbitrary other exception raised by a
rule, and the `LoweringException` wrapper added by the dispatcher's
equation-level handler. -/
inductive LoweringErr where
  | notImplementedPrimitive (name : String)
  | ruleError (msg : String)
  | loweringException (cause : LoweringErr)
  deriving DecidableEq, Repr

/-- Mirrors the dispatcher's exception handler around a rule invocation:
an exception that is already a `LoweringException` is re-raised unchanged
(only the innermost wrapping is kept); any other exception is wrapped. -/
def wrapOnce : LoweringErr → LoweringErr
  | .loweringException e => .loweringException e
  | e => .loweringException e

/-- Number of `LoweringException` wrappers around an error. -/
def wrapCount : LoweringErr → Nat
  | .loweringException e => wrapCount e + 1
  | _ => 0

/-- A jaxpr, encoded as its equation sequence.  Each equation carries the
name-stack suffix of its source info (`eqn.source_info.name_stack`) and is
either a non-control-flow primitive (with a flag for whether a rule is
registered for it, and whether that rule raises) or a control-flow
primitive whose registered rule recursively dispatches a nested jaxpr. -/
inductive Jaxpr where
  | nil : Jaxpr
  | consSimple (stack : List String) (registered : Bool) (name : String)
      (ruleFails : Option String) (rest : Jaxpr) : Jaxpr
  | consNested (stack : List String) (body : Jaxpr) (rest : Jaxpr) : Jaxpr
  deriving DecidableEq, Repr

/-- The equation loop of `jaxpr_subcomp`, threading the current name stack.
For each equation whose primitive has a registered rule, the full stack is
`ctx.name_stack + eqn.source_info.name_stack` (here `initial ++ stack`),
markers for the stack delta are emitted before the rule runs, and rule
exceptions pass through the wrap-once handler; an unregistered primitive
raises a bare `NotImplementedError` outside that handler and emits no
markers.  A nested rule re-enters the dispatcher on its body with the same
`ctx.name_stack` (rules pass `ctx.lowering_context` through unchanged), so
the nested call starts from `initial` and drains back to it on success.
Returns the emitted markers, the final name stack, and the outcome. -/
def subcompGo (initial : List String) (current : List String) :
    Jaxpr → List TraceMarker × List String × Except LoweringErr Unit
  | .nil => ([], current, .ok ())
  | .consSimple stack registered name ruleFails rest =>
    if registered then
      let full := initial ++ stack
      let upd := computeNameStackUpdates current full
      let ms := markersFor upd.1 upd.2
      match ruleFails with
      | some msg => (ms, full, .error (wrapOnce (.ruleError msg)))
      | none =>
        let r := subcompGo initial full rest
        (ms ++ r.1, r.2.1, r.2.2)
    else
      ([], current, .error (.notImplementedPrimitive name))
  | .consNested stack body rest =>
    let full := initial ++ stack
    let upd := computeNameStackUpdates current full
    let ms := markersFor upd.1 upd.2
    let b := subcompGo initial initial body
    match b.2.2 with
    | .ok () =>
      let bms := b.1 ++ drainMarkers b.2.1 initial
      let r := subcompGo initial full rest
      (ms ++ bms ++ r.1, r.2.1, r.2.2)
    | .error e => (ms ++ b.1, full, .error (wrapOnce e))

/-- Mirrors one call of `jaxpr_subcomp` with entry name stack `initial`:
runs the equation loop starting from `initial` and, on success, drains the
remaining scope markers back to the entry stack. -/
def jaxprSubcomp (initial : List String) (j : Jaxpr) :
    List TraceMarker × Except LoweringErr Unit :=
  let r := subcompGo initial initial j
  match r.2.2 with
  | .ok () => (r.1 ++ drainMarkers r.2.1 initial, .ok ())
  | .error e => (r.1, .error e)

/-- Number of `TraceStopOp`s in an emission. -/
def countStops (ms : List TraceMarker) : Nat :=
  (ms.filter (fun m => match m with | .stop => true | .start _ => false)).length

/-- Number of `TraceStartOp`s in an emission. -/
def countStarts (ms : List TraceMarker) : Nat :=
  (ms.filter (fun m => match m with | .stop => false | .start _ => true)).length

/-- A one-equation jaxpr whose only primitive has no registered rule. -/
def unregisteredJaxpr (name : String) : Jaxpr :=
  Jaxpr.consSimple [] false name none Jaxpr.nil

/-- Wraps a jaxpr `k` levels deep inside registered control-flow equations
(e.g. loop bodies) lowered by recursive dispatch. -/
def nestDepth : Nat → Jaxpr → Jaxpr
  | 0, j => j
  | k + 1, j => Jaxpr.consNested [] (nestDepth k j) Jaxpr.nil

/-! ## Theorems -/

/-- C7: for every boolean value, scalar or vector, storing it (which
zero-extends the boolean to the 4-byte storage integer) and loading it back
from the same location (which compares the stored integer not-equal-to-zero)
yields a value logically equal to the original. -/
theorem bool_store_load_roundtrip :
    (∀ b : Bool, storeThenLoadRoundTrip true (.scalarBool b) = .scalarBool b)
    ∧ (∀ bs : List Bool, storeThenLoadRoundTrip true (.vecBool bs) = .vecBool bs) := by
  constructor
  · intro b
    cases b <;> rfl
  · intro bs
    induction bs with
    | nil => rfl
    | cons b tl ih =>
      simp only [storeThenLoadRoundTrip, maybeCastLoadToBool, maybeCastStoreToMemrefType,
        extUI, cmpNeZero, List.map_cons, Bool.not_true, Bool.false_eq_true, if_false,
        RegVal.vecBool.injEq, List.cons.injEq] at ih ⊢
      refine ⟨?_, ih⟩
      cases b <;> decide

/-- C8: the swap rule with no mask supplied returns the pre-store contents
of the target location (cast back to boolean register form when needed) as
the operation's result and stores the (storage-cast) new value, in both the
scalar-memory path and the vector-memory path; a swap with a mask supplied
fails with the unsupported-masking error. -/
theorem masked_swap_returns_old_value :
    (∀ (isSmem needStride isBool : Bool) (mem val : RegVal),
      maskedSwapLoweringRule isSmem needStride isBool none mem val
        = .ok (maybeCastLoadToBool isBool mem, maybeCastStoreToMemrefType isBool val))
    ∧ (∀ (isSmem needStride isBool : Bool) (m mem val : RegVal),
      maskedSwapLoweringRule isSmem needStride isBool (some m) mem val
        = .error .unsupportedMasking) := by
  constructor
  · intro isSmem needStride isBool mem val
    cases isSmem <;> rfl
  · intro isSmem needStride isBool m mem val
    cases isSmem <;> rfl

/-- C9 counterexample: the claim states that every element type outside
the set (signed 8-bit integer, signed 32-bit integer, 32-bit float, narrow
16-bit float, boolean) fails with an unsupported-type error, but
`ir_constant` accepts an unsigned 32-bit input and produces a signless
32-bit integer constant. -/
theorem irConstant_uint32_accepted :
    DType.uint32 ∉ specClaimedConstantTypes
    ∧ irConstant (.arr .uint32) none = .ok (.intConst (.int 32)) := by
  exact ⟨by decide, rfl⟩

/-- C9 (amended): a Python integer with no requested type produces a
32-bit integer constant and a Python float a 32-bit float constant; every
input whose element type is outside the accepted set (signed 8-bit integer,
signed or unsigned 32-bit integer, 32-bit float, narrow 16-bit float,
boolean) fails with an unsupported-type error. -/
theorem irConstant_defaults_and_failures :
    irConstant .pyInt none = .ok (.intConst (.int 32))
    ∧ irConstant .pyFloat none = .ok (.floatConst .f32)
    ∧ ∀ d : DType, d ∉ irConstantAcceptedTypes →
        irConstant (.arr d) none = .error (.unsupportedType d) := by
  refine ⟨rfl, rfl, ?_⟩
  intro d hd
  cases d <;> first
    | rfl
    | exact absurd (by decide) hd

/-- Witness for the amended C9 theorem at a concrete rejected dtype. -/
theorem irConstant_defaults_and_failures_witness :
    irConstant (.arr .int16) none = .error (.unsupportedType .int16) :=
  irConstant_defaults_and_failures.2.2 .int16 (by decide)

/-- C4: for a counted loop with compile-time-constant start and trip
count, a trip count equal to the unroll factor produces exactly trip-count
inlined body copies in iteration order with no loop region (in particular
trip count 4 with unroll 4 gives 4 copies); unroll factor 1 (when full
unroll does not apply) emits exactly one structured counted-loop region;
any other unroll factor fails with the unimplemented-unroll error. -/
theorem for_loop_unroll_behavior :
    (∀ s n : Int, lowerJaxprToForLoop (.const s) (.const n) n
        = .ok (.unrolled ((List.range n.toNat).map (fun (i : Nat) => s + (i : Int))))
      ∧ ((List.range n.toNat).map (fun (i : Nat) => s + (i : Int))).length = n.toNat)
    ∧ lowerJaxprToForLoop (.const 0) (.const 4) 4 = .ok (.unrolled [0, 1, 2, 3])
    ∧ (∀ s n : Int, n ≠ 1 → lowerJaxprToForLoop (.const s) (.const n) 1
        = .ok (.forRegion (.const s) (.const n)))
    ∧ (∀ s n u : Int, u ≠ n → u ≠ 1 →
        lowerJaxprToForLoop (.const s) (.const n) u
          = .error (.unimplementedUnroll u)) := by
  refine ⟨?_, by decide, ?_, ?_⟩
  · intro s n
    constructor
    · simp [lowerJaxprToForLoop]
    · rw [List.length_map, List.length_range]
  · intro s n hn
    simp [lowerJaxprToForLoop, hn]
  · intro s n u hun hu1
    have hnu : n ≠ u := fun h => hun h.symm
    simp [lowerJaxprToForLoop, hnu, hu1]

/-- Witness for the C4 theorem, discharging its hypotheses at trip count 4
with unroll factors 1 and 2. -/
theorem for_loop_unroll_behavior_witness :
    lowerJaxprToForLoop (.const 0) (.const 4) 1 = .ok (.forRegion (.const 0) (.const 4))
    ∧ lowerJaxprToForLoop (.const 0) (.const 4) 2 = .error (.unimplementedUnroll 2) :=
  ⟨for_loop_unroll_behavior.2.2.1 0 4 (by decide),
   for_loop_unroll_behavior.2.2.2 0 4 2 (by decide) (by decide)⟩

/-- Unfolding of the cascade at exactly two remaining branches. -/
theorem condLoweringRule_pair {α : Type} (b0 b1 : α) :
    condLoweringRule [b0, b1] = some (.ifOp (.leaf b1) (.leaf b0)) := rfl

/-- Unfolding of the cascade at more than two remaining branches: one
branch is peeled and the rule recurses on the rest. -/
theorem condLoweringRule_peel {α : Type} (b0 b1 c : α) (rest2 : List α) :
    condLoweringRule (b0 :: b1 :: c :: rest2)
      = (condLoweringRule (b1 :: c :: rest2)).map (fun t => .ifOp t (.leaf b0)) := by
  rw [condLoweringRule.eq_def]
  simp

/-- C5: the multiway-branch rule lowers N candidate bodies as a cascade of
nested two-way conditionals, peeling one branch per level by testing the
index against zero and decrementing it for the remaining branches; for
every index i with 0 <= i < N the cascade selects exactly branch i. -/
theorem cond_cascade_selects_branch {α : Type} (branches : List α) (t : CondTree α)
    (i : Int) (hb : condLoweringRule branches = some t) (h0 : 0 ≤ i)
    (hlt : i < branches.length) :
    branches[i.toNat]? = some (evalCondTree i t) := by
  induction branches generalizing t i with
  | nil => simp [condLoweringRule] at hb
  | cons b0 tl ih =>
    cases tl with
    | nil => simp [condLoweringRule] at hb
    | cons b1 rest =>
      cases rest with
      | nil =>
        rw [condLoweringRule_pair, Option.some.injEq] at hb
        subst hb
        simp only [List.length_cons, List.length_nil] at hlt
        have hcase : i = 0 ∨ i = 1 := by omega
        rcases hcase with h | h <;> subst h <;> simp [evalCondTree]
      | cons c rest2 =>
        rw [condLoweringRule_peel] at hb
        rcases ht : condLoweringRule (b1 :: c :: rest2) with _ | t2 <;>
          rw [ht] at hb <;> simp only [Option.map_none', Option.map_some',
            Option.some.injEq, reduceCtorEq] at hb
        subst hb
        by_cases hi : i = 0
        · subst hi
          simp [evalCondTree]
        · have h1 : 1 ≤ i := by omega
          simp only [List.length_cons] at hlt
          have key := ih t2 (i - 1) ht (by omega) (by simp only [List.length_cons]; omega)
          have hnat : i.toNat = (i - 1).toNat + 1 := by omega
          rw [hnat, List.getElem?_cons_succ]
          rw [key]
          simp only [evalCondTree, if_pos hi]

/-- Witness instance for C5: three branches, index 2 selects the third. -/
theorem cond_cascade_selects_branch_witness :
    [10, 20, 30][(2 : Int).toNat]? = some (evalCondTree 2
      (CondTree.ifOp (CondTree.ifOp (.leaf 30) (.leaf 20)) (.leaf 10))) :=
  cond_cascade_selects_branch [10, 20, 30]
    (CondTree.ifOp (CondTree.ifOp (.leaf 30) (.leaf 20)) (.leaf 10)) 2
    (by decide) (by decide) (by decide)

/-- C3: a non-exempt block mapping passes validation only if it satisfies
the tiling divisibility conditions (last dimension equal to the array
dimension or a multiple of 128 — scaled by 32 over the element bit width
for rank 1 — and, for rank at least 2, second-to-last dimension equal to
the array dimension or a multiple of 8); array shape (256, 256) with block
shape (128, 128) passes, and array shape (256, 100) with block shape
(128, 50) fails with the invalid-block-spec tiling error. -/
theorem block_shape_legality :
    (∀ bm : BlockMapping, ¬ (bm.memorySpace = .smem ∧ bm.trivialWindow) →
      validateBlockMapping bm = .ok () → tilingConditions bm)
    ∧ validateBlockMapping ⟨[.size 128, .size 128], [256, 256], .vmem, false, 32⟩
        = .ok ()
    ∧ validateBlockMapping ⟨[.size 128, .size 50], [256, 100], .vmem, false, 32⟩
        = .error .invalidBlockSpecTiling := by
  refine ⟨?_, by decide, by decide⟩
  intro bm hex hok
  simp only [validateBlockMapping] at hok
  rw [if_neg hex] at hok
  split at hok
  · exact absurd hok (by simp)
  split at hok
  · exact absurd hok (by simp)
  simp only [tilingConditions]
  split at hok
  case isTrue hrank =>
    rw [if_pos hrank]
    split at hok
    case isTrue hdiv =>
      simp only [Bool.and_eq_true, Bool.or_eq_true, beq_iff_eq] at hdiv
      exact hdiv
    case isFalse hdiv => exact absurd hok (by simp)
  case isFalse hrank =>
    rw [if_neg hrank]
    split at hok
    case isTrue hdiv =>
      simp only [Bool.or_eq_true, beq_iff_eq] at hdiv
      exact hdiv
    case isFalse hdiv => exact absurd hok (by simp)

/-- Witness for C3: the passing example satisfies the stated tiling
conditions. -/
theorem block_shape_legality_witness :
    tilingConditions ⟨[.size 128, .size 128], [256, 256], .vmem, false, 32⟩ :=
  block_shape_legality.1 ⟨[.size 128, .size 128], [256, 256], .vmem, false, 32⟩
    (by simp) (by decide)

/-- Unfolding of the semantics assignment at an empty grid. -/
theorem assignDimensionSemantics_nil (mapped : List Nat) (sems : List String) :
    assignDimensionSemantics [] mapped sems = some [] := rfl

/-- Unfolding of the semantics assignment at a synthetic dimension. -/
theorem assignDimensionSemantics_cons_mem {i : Nat} {mapped : List Nat}
    (rest : List Nat) (sems : List String) (hi : i ∈ mapped) :
    assignDimensionSemantics (i :: rest) mapped sems
      = (assignDimensionSemantics rest mapped sems).map (fun l => "parallel" :: l) := by
  rw [assignDimensionSemantics.eq_def]
  simp [hi]

/-- Unfolding of the semantics assignment at a user dimension with the
semantics iterator exhausted. -/
theorem assignDimensionSemantics_cons_not_mem_nil {i : Nat} {mapped : List Nat}
    (rest : List Nat) (hi : i ∉ mapped) :
    assignDimensionSemantics (i :: rest) mapped [] = none := by
  rw [assignDimensionSemantics.eq_def]
  simp [hi]

/-- Unfolding of the semantics assignment at a user dimension consuming
the next supplied entry. -/
theorem assignDimensionSemantics_cons_not_mem_cons {i : Nat} {mapped : List Nat}
    (rest : List Nat) (s : String) (sems2 : List String) (hi : i ∉ mapped) :
    assignDimensionSemantics (i :: rest) mapped (s :: sems2)
      = (assignDimensionSemantics rest mapped sems2).map (fun l => s :: l) := by
  rw [assignDimensionSemantics.eq_def]
  simp [hi]

/-- Every synthetic (mapped) grid dimension is assigned `"parallel"`,
whatever the user-supplied semantics are. -/
theorem assignDimensionSemantics_mapped {l mapped : List Nat} {sems res : List String}
    (h : assignDimensionSemantics l mapped sems = some res) :
    ∀ (k x : Nat), l[k]? = some x → x ∈ mapped → res[k]? = some "parallel" := by
  induction l generalizing sems res with
  | nil => intro k x hk; simp at hk
  | cons i rest ih =>
    by_cases hi : i ∈ mapped
    · rw [assignDimensionSemantics_cons_mem rest sems hi] at h
      rcases hr : assignDimensionSemantics rest mapped sems with _ | res2 <;>
        rw [hr] at h <;> simp only [Option.map_none', Option.map_some',
          Option.some.injEq, reduceCtorEq] at h
      subst h
      intro k x hk hx
      cases k with
      | zero => simp
      | succ k2 =>
        simp only [List.getElem?_cons_succ] at hk ⊢
        exact ih hr k2 x hk hx
    · cases sems with
      | nil => rw [assignDimensionSemantics_cons_not_mem_nil rest hi] at h; simp at h
      | cons s sems2 =>
        rw [assignDimensionSemantics_cons_not_mem_cons rest s sems2 hi] at h
        rcases hr : assignDimensionSemantics rest mapped sems2 with _ | res2 <;>
          rw [hr] at h <;> simp only [Option.map_none', Option.map_some',
            Option.some.injEq, reduceCtorEq] at h
        subst h
        intro k x hk hx
        cases k with
        | zero =>
          simp only [List.getElem?_cons_zero, Option.some.injEq] at hk
          subst hk
          exact absurd hx hi
        | succ k2 =>
          simp only [List.getElem?_cons_succ] at hk ⊢
          exact ih hr k2 x hk hx

/-- When every supplied semantics entry is `"arbitrary"` (the default used
when none are supplied), every non-mapped grid dimension is assigned
`"arbitrary"`. -/
theorem assignDimensionSemantics_user {l mapped : List Nat} {sems res : List String}
    (hall : ∀ s ∈ sems, s = "arbitrary")
    (h : assignDimensionSemantics l mapped sems = some res) :
    ∀ (k x : Nat), l[k]? = some x → x ∉ mapped → res[k]? = some "arbitrary" := by
  induction l generalizing sems res with
  | nil => intro k x hk; simp at hk
  | cons i rest ih =>
    by_cases hi : i ∈ mapped
    · rw [assignDimensionSemantics_cons_mem rest sems hi] at h
      rcases hr : assignDimensionSemantics rest mapped sems with _ | res2 <;>
        rw [hr] at h <;> simp only [Option.map_none', Option.map_some',
          Option.some.injEq, reduceCtorEq] at h
      subst h
      intro k x hk hx
      cases k with
      | zero =>
        simp only [List.getElem?_cons_zero, Option.some.injEq] at hk
        subst hk
        exact absurd hi hx
      | succ k2 =>
        simp only [List.getElem?_cons_succ] at hk ⊢
        exact ih hall hr k2 x hk hx
    · cases sems with
      | nil => rw [assignDimensionSemantics_cons_not_mem_nil rest hi] at h; simp at h
      | cons s sems2 =>
        rw [assignDimensionSemantics_cons_not_mem_cons rest s sems2 hi] at h
        rcases hr : assignDimensionSemantics rest mapped sems2 with _ | res2 <;>
          rw [hr] at h <;> simp only [Option.map_none', Option.map_some',
            Option.some.injEq, reduceCtorEq] at h
        subst h
        intro k x hk hx
        cases k with
        | zero =>
          have hs : s = "arbitrary" := hall s (List.mem_cons_self s sems2)
          subst hs
          simp
        | succ k2 =>
          simp only [List.getElem?_cons_succ] at hk ⊢
          exact ih (fun x hx2 => hall x (List.mem_cons_of_mem s hx2)) hr k2 x hk hx

/-- The assignment succeeds whenever at least one semantics entry is
available per non-mapped dimension. -/
theorem assignDimensionSemantics_total {l mapped : List Nat} {sems : List String}
    (h : (l.filter (fun x => decide (x ∉ mapped))).length ≤ sems.length) :
    (assignDimensionSemantics l mapped sems).isSome := by
  induction l generalizing sems with
  | nil => simp [assignDimensionSemantics_nil]
  | cons i rest ih =>
    by_cases hi : i ∈ mapped
    · have hfc : (i :: rest).filter (fun x => decide (x ∉ mapped))
          = rest.filter (fun x => decide (x ∉ mapped)) := by
        rw [List.filter_cons]
        simp [hi]
      have h2 : ((rest.filter (fun x => decide (x ∉ mapped))).length ≤ sems.length) := by
        have hh := h
        rw [hfc] at hh
        exact hh
      rcases Option.isSome_iff_exists.mp (ih h2) with ⟨res2, hr⟩
      simp [assignDimensionSemantics_cons_mem rest sems hi, hr]
    · have hfc : (i :: rest).filter (fun x => decide (x ∉ mapped))
          = i :: rest.filter (fun x => decide (x ∉ mapped)) := by
        rw [List.filter_cons]
        simp [hi]
      cases sems with
      | nil =>
        exfalso
        have hh := h
        rw [hfc] at hh
        simp at hh
      | cons s sems2 =>
        have h2 : ((rest.filter (fun x => decide (x ∉ mapped))).length ≤ sems2.length) := by
          have hh := h
          rw [hfc, List.length_cons, List.length_cons] at hh
          omega
        rcases Option.isSome_iff_exists.mp (ih h2) with ⟨res2, hr⟩
        simp [assignDimensionSemantics_cons_not_mem_cons rest s sems2 hi, hr]

/-- Destructing the result-match at the end of `mosaicDimensionSemantics`:
an `ok` outcome determines the underlying assignment. -/
theorem matchAssignOk {o : Option (List String)} {res : List String}
    (h : (match o with
          | some result => Except.ok result
          | none => (Except.error Err.semanticsIterExhausted : Except Err (List String)))
        = .ok res) :
    o = some res := by
  cases o <;> simp_all

/-- C10: in every constructed grid mapping, every synthetic (vmap) grid
dimension gets scheduling semantics `"parallel"` regardless of the
user-supplied semantics; with no user-supplied semantics every user grid
dimension gets `"arbitrary"` (and construction succeeds); and construction
fails when the number of user-supplied entries differs from the number of
non-synthetic grid dimensions. -/
theorem dimension_semantics_assignment :
    (∀ (gridLen : Nat) (mappedDims : List Nat) (ds : Option (List String))
        (res : List String),
       mosaicDimensionSemantics gridLen mappedDims ds = .ok res →
       ∀ i, i < gridLen → i ∈ mappedDims → res[i]? = some "parallel")
    ∧ (∀ (gridLen : Nat) (mappedDims : List Nat) (res : List String),
       mosaicDimensionSemantics gridLen mappedDims none = .ok res →
       ∀ i, i < gridLen → i ∉ mappedDims → res[i]? = some "arbitrary")
    ∧ (∀ (gridLen : Nat) (mappedDims : List Nat),
       ∃ res, mosaicDimensionSemantics gridLen mappedDims none = .ok res)
    ∧ (∀ (gridLen : Nat) (mappedDims : List Nat) (l : List String),
       l.length ≠ userGridCount gridLen mappedDims →
       mosaicDimensionSemantics gridLen mappedDims (some l)
         = .error .dimensionSemanticsMismatch) := by
  refine ⟨?_, ?_, ?_, ?_⟩
  · intro gridLen mappedDims ds res h i hi hmem
    cases ds with
    | none =>
      simp only [mosaicDimensionSemantics] at h
      split at h
      · exact absurd h (by simp)
      · exact assignDimensionSemantics_mapped (matchAssignOk h) i i
          (by simp [List.getElem?_range, hi]) hmem
    | some l =>
      simp only [mosaicDimensionSemantics] at h
      split at h
      · exact absurd h (by simp)
      · exact assignDimensionSemantics_mapped (matchAssignOk h) i i
          (by simp [List.getElem?_range, hi]) hmem
  · intro gridLen mappedDims res h i hi hmem
    simp only [mosaicDimensionSemantics] at h
    split at h
    · exact absurd h (by simp)
    · exact assignDimensionSemantics_user
        (fun s hs => List.eq_of_mem_replicate hs) (matchAssignOk h) i i
        (by simp [List.getElem?_range, hi]) hmem
  · intro gridLen mappedDims
    have htot := @assignDimensionSemantics_total (List.range gridLen) mappedDims
      (List.replicate (userGridCount gridLen mappedDims) "arbitrary")
      (by simp [userGridCount])
    rcases Option.isSome_iff_exists.mp htot with ⟨res, hr⟩
    refine ⟨res, ?_⟩
    simp [mosaicDimensionSemantics, List.length_replicate, hr]
  · intro gridLen mappedDims l hne
    simp [mosaicDimensionSemantics, hne]

/-- Witness for C10 at a concrete grid: grid rank 3 with synthetic
dimension 1 and user semantics for the two user dimensions. -/
theorem dimension_semantics_assignment_witness :
    ["x", "parallel", "y"][1]? = some "parallel" :=
  dimension_semantics_assignment.1 3 [1] (some ["x", "y"]) ["x", "parallel", "y"]
    (by decide) 1 (by decide) (by decide)

/-- For a mapped-free block shape, a full unit-stride zero-offset slice
indexer is consumed dimension by dimension, producing zero starts, the full
sizes, unit strides, and no squeezed dimension. -/
theorem indexerLoop_full_slice (S : List Nat) :
    indexerLoop (S.map BlockDim.size) (S.map (fun s => IndexDesc.sliceIdx 0 s 1))
      = some (S.map (fun s => ((0 : Nat), s, (1 : Nat), false)), []) := by
  induction S with
  | nil => rfl
  | cons s tl ih =>
    simp only [List.map_cons, indexerLoop, indexToStartSizeStride, ih,
      Option.map_some']

/-- The size components of the full-slice tuples recover the block shape. -/
theorem fullSliceTuples_sizes (S : List Nat) :
    (S.map (fun s => ((0 : Nat), s, (1 : Nat), false))).map (fun t => t.2.1) = S := by
  induction S with
  | nil => rfl
  | cons s tl ih => simp only [List.map_cons, ih]

/-- All strides of the full-slice tuples are 1. -/
theorem fullSliceTuples_strides (S : List Nat) :
    ((S.map (fun s => ((0 : Nat), s, (1 : Nat), false))).map (fun t => t.2.2.1)).all
      (fun s => s == 1) = true := by
  induction S with
  | nil => rfl
  | cons s tl ih => simp [ih]

/-- No dimension of a full slice is squeezed. -/
theorem fullSliceTuples_no_squeeze (S : List Nat) :
    ((S.map (fun s => ((0 : Nat), s, (1 : Nat), false))).map (fun t => t.2.2.2)).any id
      = false := by
  induction S with
  | nil => rfl
  | cons s tl ih => simp [ih]

/-- The non-squeezed sizes of the full-slice tuples are the whole block
shape. -/
theorem fullSliceTuples_filter (S : List Nat) :
    ((S.map (fun s => ((0 : Nat), s, (1 : Nat), false))).filter
        (fun t => !t.2.2.2)).map (fun t => t.2.1) = S := by
  induction S with
  | nil => rfl
  | cons s tl ih => simp [List.filter_cons, ih]

/-- For every element dtype except boolean, the kernel-boundary cast of
`_dtype_to_ir_type` is the identity, so the slice's narrowed element type
matches the element type the reference was created with. -/
theorem dtypeToIrType_no_boundary_cast (dtype : DType) (hnb : dtype ≠ DType.bool) :
    dtypeToIrType dtype false = dtypeToIrType dtype true := by
  cases dtype <;> first | rfl | exact absurd rfl hnb

/-- C6 counterexample: a full unit-stride zero-offset slice of a boolean
reference changes its IR element type.  The reference is created with the
kernel-boundary element type (`i32` for booleans, `aval_to_ir_type` with
`is_kernel_boundary=True`), but `_slice_memref` narrows with
`_dtype_to_ir_type(ref_aval.dtype)` without the boundary cast (`i1`), so
the resulting reference's IR type differs from the input reference's
type, refuting the claimed type identity for boolean references. -/
theorem index_ref_bool_full_slice_changes_type :
    dtypeToIrType DType.bool true = IRType.int 32
    ∧ indexRef ⟨[8, 128], IRType.int 32, MemSpace.vmem⟩ DType.bool
        [BlockDim.size 8, BlockDim.size 128]
        [[IndexDesc.sliceIdx 0 8 1, IndexDesc.sliceIdx 0 128 1]]
        = .ok (⟨[8, 128], IRType.int 1, MemSpace.vmem⟩,
               [BlockDim.size 8, BlockDim.size 128])
    ∧ IRType.int 1 ≠ IRType.int 32 :=
  ⟨rfl, by decide, by decide⟩

/-- C6 (amended): for a reference of block shape S (no synthetic mapped
dimensions) whose element dtype is not boolean, and a full slice indexer
covering every dimension with zero offset, unit stride, and size equal to
the dimension extent, `_index_ref` returns a reference whose IR type
equals the input reference's type and whose block shape is S (nothing is
squeezed and no narrowing changes the type); a boolean reference keeps
block shape S but has its element type narrowed from the 4-byte
kernel-boundary storage integer to `i1`. -/
theorem index_ref_full_slice_identity (S : List Nat) (dtype : DType) (mem : MemSpace)
    (hnb : dtype ≠ DType.bool) :
    indexRef ⟨S, dtypeToIrType dtype true, mem⟩ dtype (S.map BlockDim.size)
      [S.map (fun s => IndexDesc.sliceIdx 0 s 1)]
      = .ok (⟨S, dtypeToIrType dtype true, mem⟩, S.map BlockDim.size) := by
  simp only [indexRef, sliceMemref, indexerToStartSizeStride, indexerLoop_full_slice,
    List.isEmpty_nil, if_true, fullSliceTuples_sizes, fullSliceTuples_strides,
    fullSliceTuples_no_squeeze, fullSliceTuples_filter, Bool.not_true,
    Bool.false_eq_true, if_false, dtypeToIrType_no_boundary_cast dtype hnb]
  simp

/-- Witness for the amended C6 theorem at a concrete non-boolean
reference. -/
theorem index_ref_full_slice_identity_witness :
    indexRef ⟨[8, 128], dtypeToIrType DType.float32 true, MemSpace.vmem⟩ DType.float32
      ([8, 128].map BlockDim.size)
      [[8, 128].map (fun s => IndexDesc.sliceIdx 0 s 1)]
      = .ok (⟨[8, 128], dtypeToIrType DType.float32 true, MemSpace.vmem⟩,
             [8, 128].map BlockDim.size) :=
  index_ref_full_slice_identity [8, 128] DType.float32 MemSpace.vmem (by decide)

/-- Equation: the dispatcher on an empty equation list emits nothing and
leaves the stack unchanged. -/
theorem subcompGo_nil (initial current : List String) :
    subcompGo initial current .nil = ([], current, .ok ()) := rfl

/-- Equation: an unregistered primitive raises the bare
`NotImplementedError` with no markers emitted and no wrapping. -/
theorem subcompGo_unregistered (initial current stack : List String) (name : String)
    (ruleFails : Option String) (rest : Jaxpr) :
    subcompGo initial current (.consSimple stack false name ruleFails rest)
      = ([], current, .error (.notImplementedPrimitive name)) := rfl

/-- Equation: a registered rule that raises gets its exception wrapped by
the equation-level handler, after the scope markers were emitted. -/
theorem subcompGo_ruleFails (initial current stack : List String) (name msg : String)
    (rest : Jaxpr) :
    subcompGo initial current (.consSimple stack true name (some msg) rest)
      = (markersFor (computeNameStackUpdates current (initial ++ stack)).1
                    (computeNameStackUpdates current (initial ++ stack)).2,
         initial ++ stack, .error (wrapOnce (.ruleError msg))) := rfl

/-- Equation: a registered rule that succeeds emits the stack-delta markers
and continues with the updated stack. -/
theorem subcompGo_registered (initial current stack : List String) (name : String)
    (rest : Jaxpr) :
    subcompGo initial current (.consSimple stack true name none rest)
      = (markersFor (computeNameStackUpdates current (initial ++ stack)).1
                    (computeNameStackUpdates current (initial ++ stack)).2
          ++ (subcompGo initial (initial ++ stack) rest).1,
         (subcompGo initial (initial ++ stack) rest).2.1,
         (subcompGo initial (initial ++ stack) rest).2.2) := rfl

/-- Equation: a nested rule whose body lowers successfully contributes the
body's markers plus the body's end-of-jaxpr drain. -/
theorem subcompGo_nested_ok (initial current stack : List String) (body rest : Jaxpr)
    (bms : List TraceMarker) (bcur : List String)
    (hb : subcompGo initial initial body = (bms, bcur, .ok ())) :
    subcompGo initial current (.consNested stack body rest)
      = (markersFor (computeNameStackUpdates current (initial ++ stack)).1
                    (computeNameStackUpdates current (initial ++ stack)).2
          ++ (bms ++ drainMarkers bcur initial)
          ++ (subcompGo initial (initial ++ stack) rest).1,
         (subcompGo initial (initial ++ stack) rest).2.1,
         (subcompGo initial (initial ++ stack) rest).2.2) := by
  simp only [subcompGo, hb]

/-- Equation: an error escaping a nested body is wrapped exactly once by
the equation-level handler (an already-wrapped `LoweringException` passes
through `wrapOnce` unchanged). -/
theorem subcompGo_nested_error (initial current stack : List String) (body rest : Jaxpr)
    (bms : List TraceMarker) (bcur : List String) (e : LoweringErr)
    (hb : subcompGo initial initial body = (bms, bcur, .error e)) :
    subcompGo initial current (.consNested stack body rest)
      = (markersFor (computeNameStackUpdates current (initial ++ stack)).1
                    (computeNameStackUpdates current (initial ++ stack)).2 ++ bms,
         initial ++ stack, .error (wrapOnce e)) := by
  simp only [subcompGo, hb]

/-- Equation: a successful dispatcher call appends the end-of-jaxpr
drain. -/
theorem jaxprSubcomp_ok (initial : List String) (j : Jaxpr)
    (ms : List TraceMarker) (cur : List String)
    (h : subcompGo initial initial j = (ms, cur, .ok ())) :
    jaxprSubcomp initial j = (ms ++ drainMarkers cur initial, .ok ()) := by
  simp only [jaxprSubcomp, h]

/-- Equation: a failing dispatcher call propagates the error with no
drain. -/
theorem jaxprSubcomp_error (initial : List String) (j : Jaxpr)
    (ms : List TraceMarker) (cur : List String) (e : LoweringErr)
    (h : subcompGo initial initial j = (ms, cur, .error e)) :
    jaxprSubcomp initial j = (ms, .error e) := by
  simp only [jaxprSubcomp, h]

/-- The longest common prefix is no longer than the first stack. -/
theorem lcpLen_le_left (a b : List String) : lcpLen a b ≤ a.length := by
  induction a generalizing b with
  | nil => cases b <;> simp [lcpLen]
  | cons x xs ih =>
    cases b with
    | nil => simp [lcpLen]
    | cons y ys =>
      by_cases hxy : x = y
      · simp only [lcpLen, hxy, if_pos]
        exact Nat.succ_le_succ (ih ys)
      · simp [lcpLen, hxy]

/-- The longest common prefix is no longer than the second stack. -/
theorem lcpLen_le_right (a b : List String) : lcpLen a b ≤ b.length := by
  induction a generalizing b with
  | nil => cases b <;> simp [lcpLen]
  | cons x xs ih =>
    cases b with
    | nil => simp [lcpLen]
    | cons y ys =>
      by_cases hxy : x = y
      · simp only [lcpLen, hxy, if_pos]
        exact Nat.succ_le_succ (ih ys)
      · simp [lcpLen, hxy]

/-- A stack extending the entry stack has the entry stack as its common
prefix. -/
theorem lcpLen_append (a t : List String) : lcpLen (a ++ t) a = a.length := by
  induction a with
  | nil => cases t <;> simp [lcpLen]
  | cons x xs ih => simp [lcpLen, ih]

/-- The end-of-jaxpr update pops exactly the names beyond the entry stack
and pushes nothing. -/
theorem computeNameStackUpdates_to_initial (initial t : List String) :
    computeNameStackUpdates (initial ++ t) initial = (t, []) := by
  simp only [computeNameStackUpdates, lcpLen_append]
  rw [List.drop_left, List.drop_length]

/-- The drain back to the entry stack emits one stop marker per extra
name. -/
theorem drainMarkers_append (initial t : List String) :
    drainMarkers (initial ++ t) initial = t.map (fun _ => TraceMarker.stop) := by
  simp only [drainMarkers, computeNameStackUpdates_to_initial]

/-- Marker counting distributes over concatenation. -/
theorem countStops_append (a b : List TraceMarker) :
    countStops (a ++ b) = countStops a + countStops b := by
  simp [countStops, List.filter_append]

/-- Marker counting distributes over concatenation. -/
theorem countStarts_append (a b : List TraceMarker) :
    countStarts (a ++ b) = countStarts a + countStarts b := by
  simp [countStarts, List.filter_append]

/-- A run of stop markers counts as stops only. -/
theorem count_stops_run (p : List String) :
    countStops (p.map (fun _ => TraceMarker.stop)) = p.length
    ∧ countStarts (p.map (fun _ => TraceMarker.stop)) = 0 := by
  induction p with
  | nil => exact ⟨rfl, rfl⟩
  | cons x xs ih =>
    refine ⟨?_, ?_⟩ <;>
      · simp [countStops, countStarts, List.filter_cons] at ih ⊢
        try omega

/-- A run of start markers counts as starts only. -/
theorem count_starts_run (q : List String) :
    countStops (q.map TraceMarker.start) = 0
    ∧ countStarts (q.map TraceMarker.start) = q.length := by
  induction q with
  | nil => exact ⟨rfl, rfl⟩
  | cons x xs ih =>
    refine ⟨?_, ?_⟩ <;>
      · simp [countStops, countStarts, List.filter_cons] at ih ⊢
        try omega

/-- The markers for one stack update: as many stops as popped names and as
many starts as pushed names. -/
theorem countMarkersFor (p q : List String) :
    countStops (markersFor p q) = p.length
    ∧ countStarts (markersFor p q) = q.length := by
  constructor
  · rw [markersFor, countStops_append, (count_stops_run p).1, (count_starts_run q).1]
    omega
  · rw [markersFor, countStarts_append, (count_stops_run p).2, (count_starts_run q).2]
    omega

/-- Balance invariant of the equation loop: whenever the loop completes
successfully from a stack extending the entry stack, the final stack still
extends the entry stack and the surplus of emitted stop markers over start
markers equals the drop in stack depth. -/
theorem subcompGo_balance (initial : List String) (j : Jaxpr) :
    ∀ (current t : List String), current = initial ++ t →
      (subcompGo initial current j).2.2 = .ok () →
      (∃ t2, (subcompGo initial current j).2.1 = initial ++ t2)
      ∧ (countStops (subcompGo initial current j).1 : Int)
          - countStarts (subcompGo initial current j).1
        = (current.length : Int) - (subcompGo initial current j).2.1.length := by
  induction j with
  | nil =>
    intro current t hcur hok
    simp only [subcompGo_nil]
    exact ⟨⟨t, hcur⟩, by simp [countStops, countStarts]⟩
  | consSimple stack registered name ruleFails rest ihrest =>
    intro current t hcur hok
    cases registered with
    | false =>
      rw [subcompGo_unregistered] at hok
      simp at hok
    | true =>
      cases ruleFails with
      | some msg =>
        rw [subcompGo_ruleFails] at hok
        simp at hok
      | none =>
        simp only [subcompGo_registered] at hok ⊢
        obtain ⟨⟨t2, hcur2⟩, hbal⟩ := ihrest (initial ++ stack) stack rfl hok
        refine ⟨⟨t2, hcur2⟩, ?_⟩
        rw [countStops_append, countStarts_append]
        have hm := countMarkersFor (computeNameStackUpdates current (initial ++ stack)).1
          (computeNameStackUpdates current (initial ++ stack)).2
        have hp : (computeNameStackUpdates current (initial ++ stack)).1.length
            = current.length - lcpLen current (initial ++ stack) := by
          simp [computeNameStackUpdates]
        have hq : (computeNameStackUpdates current (initial ++ stack)).2.length
            = (initial ++ stack).length - lcpLen current (initial ++ stack) := by
          simp [computeNameStackUpdates]
        have hk1 := lcpLen_le_left current (initial ++ stack)
        have hk2 := lcpLen_le_right current (initial ++ stack)
        omega
  | consNested stack body rest ihbody ihrest =>
    intro current t hcur hok
    rcases hb : subcompGo initial initial body with ⟨bms, bcur, bres⟩
    cases bres with
    | error e =>
      rw [subcompGo_nested_error initial current stack body rest bms bcur e hb] at hok
      simp at hok
    | ok u =>
      cases u
      obtain ⟨⟨t2, ht2⟩, hbbal⟩ := ihbody initial [] (by simp) (by rw [hb])
      rw [hb] at ht2 hbbal
      simp only at ht2 hbbal
      rw [subcompGo_nested_ok initial current stack body rest bms bcur hb] at hok ⊢
      simp only at hok ⊢
      obtain ⟨⟨t3, ht3⟩, hrbal⟩ := ihrest (initial ++ stack) stack rfl hok
      refine ⟨⟨t3, ht3⟩, ?_⟩
      rw [countStops_append, countStops_append, countStops_append,
        countStarts_append, countStarts_append, countStarts_append]
      have hm := countMarkersFor (computeNameStackUpdates current (initial ++ stack)).1
        (computeNameStackUpdates current (initial ++ stack)).2
      have hp : (computeNameStackUpdates current (initial ++ stack)).1.length
          = current.length - lcpLen current (initial ++ stack) := by
        simp [computeNameStackUpdates]
      have hq : (computeNameStackUpdates current (initial ++ stack)).2.length
          = (initial ++ stack).length - lcpLen current (initial ++ stack) := by
        simp [computeNameStackUpdates]
      have hk1 := lcpLen_le_left current (initial ++ stack)
      have hk2 := lcpLen_le_right current (initial ++ stack)
      have hdrain : drainMarkers bcur initial = t2.map (fun _ => TraceMarker.stop) := by
        rw [ht2, drainMarkers_append]
      have hdc := count_stops_run t2
      rw [hdrain]
      have hlen2 : bcur.length = initial.length + t2.length := by
        rw [ht2, List.length_append]
      omega

/-- C2: for every jaxpr lowered by the equation-level dispatcher, the
scope markers emitted across the entire (successful) call are balanced:
the number of trace-stop markers equals the number of trace-start markers,
and the end-of-jaxpr drain pops every remaining pushed scope and pushes
nothing (the stack returns exactly to the depth active on entry). -/
theorem scope_marker_balance (initial : List String) (j : Jaxpr)
    (ms : List TraceMarker) (h : jaxprSubcomp initial j = (ms, .ok ())) :
    countStops ms = countStarts ms
    ∧ (computeNameStackUpdates (subcompGo initial initial j).2.1 initial).2 = [] := by
  rcases hr : subcompGo initial initial j with ⟨ms0, cur, res⟩
  cases res with
  | error e =>
    rw [jaxprSubcomp_error initial j ms0 cur e hr] at h
    simp at h
  | ok u =>
    cases u
    rw [jaxprSubcomp_ok initial j ms0 cur hr] at h
    obtain ⟨hms, -⟩ := Prod.mk.injEq .. ▸ h
    obtain ⟨⟨t2, ht2⟩, hbal⟩ := subcompGo_balance initial j initial [] (by simp)
      (by rw [hr])
    rw [hr] at ht2 hbal
    simp only at ht2 hbal
    constructor
    · have hdrain : drainMarkers cur initial = t2.map (fun _ => TraceMarker.stop) := by
        rw [ht2, drainMarkers_append]
      have hdc := count_stops_run t2
      have hlen2 : cur.length = initial.length + t2.length := by
        rw [ht2, List.length_append]
      rw [← hms, countStops_append, countStarts_append, hdrain]
      omega
    · dsimp only
      rw [ht2, computeNameStackUpdates_to_initial]

/-- Witness for C2 at a concrete one-equation jaxpr entering one named
scope: one start and one stop marker are emitted. -/
theorem scope_marker_balance_witness :
    countStops [TraceMarker.start "scope", TraceMarker.stop]
      = countStarts [TraceMarker.start "scope", TraceMarker.stop] :=
  (scope_marker_balance [] (Jaxpr.consSimple ["scope"] true "add" none Jaxpr.nil)
    [TraceMarker.start "scope", TraceMarker.stop] (by decide)).1

/-- C1 counterexample: the claim states that lowering a jaxpr containing
one equation of an unregistered operation kind raises exactly one
`LoweringException`; but the dispatcher raises the unsupported-primitive
error directly, outside its equation-level wrapping handler, so at top
level the escaping error carries zero `LoweringException` wrappers. -/
theorem unregistered_primitive_not_wrapped_at_top_level :
    jaxprSubcomp [] (unregisteredJaxpr "my_custom_call")
      = ([], .error (.notImplementedPrimitive "my_custom_call"))
    ∧ wrapCount (.notImplementedPrimitive "my_custom_call") = 0 :=
  ⟨rfl, rfl⟩

/-- Any nesting of the unregistered-primitive jaxpr inside registered
control-flow equations produces exactly one `LoweringException` wrapper:
the innermost enclosing dispatcher wraps once, and every further level
passes the already-wrapped exception through unchanged. -/
theorem subcompGo_nestDepth_wraps_once (initial : List String) (name : String) :
    ∀ k : Nat, (subcompGo initial initial (nestDepth (k + 1) (unregisteredJaxpr name))).2.2
      = .error (.loweringException (.notImplementedPrimitive name)) := by
  intro k
  induction k with
  | zero =>
    have hb : subcompGo initial initial (unregisteredJaxpr name)
        = ([], initial, .error (.notImplementedPrimitive name)) := rfl
    rw [show nestDepth 1 (unregisteredJaxpr name)
        = Jaxpr.consNested [] (unregisteredJaxpr name) Jaxpr.nil from rfl,
      subcompGo_nested_error initial initial [] (unregisteredJaxpr name) Jaxpr.nil
        [] initial (.notImplementedPrimitive name) hb]
    rfl
  | succ k2 ih =>
    rcases hb : subcompGo initial initial (nestDepth (k2 + 1) (unregisteredJaxpr name))
      with ⟨bms, bcur, bres⟩
    rw [hb] at ih
    simp only at ih
    subst ih
    rw [show nestDepth (k2 + 1 + 1) (unregisteredJaxpr name)
        = Jaxpr.consNested [] (nestDepth (k2 + 1) (unregisteredJaxpr name)) Jaxpr.nil
        from rfl,
      subcompGo_nested_error initial initial [] _ Jaxpr.nil bms bcur _ hb]
    rfl

/-- C1 (amended): lowering a jaxpr whose single equation has no registered
rule raises the bare unsupported-primitive error naming that kind (no
`LoweringException` at top level); when that jaxpr is nested (at any
depth of at least one) inside outer constructs lowered by recursive
dispatch, exactly one `LoweringException` is raised, wrapping the
unsupported-primitive error exactly once — an already-wrapped exception
propagating from a nested call passes through unchanged. -/
theorem unregistered_primitive_error_wrapping (initial : List String) (name : String)
    (k : Nat) :
    (jaxprSubcomp initial (unregisteredJaxpr name)).2
        = .error (.notImplementedPrimitive name)
    ∧ (jaxprSubcomp initial (nestDepth (k + 1) (unregisteredJaxpr name))).2
        = .error (.loweringException (.notImplementedPrimitive name))
    ∧ wrapCount (.loweringException (.notImplementedPrimitive name)) = 1 := by
  refine ⟨rfl, ?_, rfl⟩
  have h := subcompGo_nestDepth_wraps_once initial name k
  rcases hb : subcompGo initial initial (nestDepth (k + 1) (unregisteredJaxpr name))
    with ⟨bms, bcur, bres⟩
  rw [hb] at h
  simp only at h
  subst h
  rw [jaxprSubcomp_error initial _ bms bcur _ hb]

end MosaicLowering
